import Mathlib

/-!
Shallow embedding of the OMR bubble-detection pipeline
(`src/omr_processor.py`, function `detect_filled_bubbles` and the
request handler `process_omr`).

Pixel coordinates and box dimensions are natural numbers (OpenCV's
`boundingRect` returns non-negative integers); contour areas and fill
percentages, which the Python code manipulates as floats, are modelled
as rationals.  The binary threshold image is a function from (row,
column) to `Bool` (`true` = white/foreground in the inverted image).
-/

namespace OMR

/-- A bubble candidate: the bounding rectangle and contour area that
`detect_filled_bubbles` stores for each contour surviving the filter.
`center_x`/`center_y` are derived fields in the Python dict; here they
are functions of the rectangle. -/
structure Bubble where
  x : ℕ
  y : ℕ
  w : ℕ
  h : ℕ
  area : ℚ
deriving DecidableEq, Repr

/-- Python: `x + w // 2`. -/
def center_x (b : Bubble) : ℕ := b.x + b.w / 2

/-- Python: `y + h // 2`. -/
def center_y (b : Bubble) : ℕ := b.y + b.h / 2

/-- Python: `aspect_ratio = w / float(h) if h > 0 else 0`. -/
def aspect_ratio (b : Bubble) : ℚ := if 0 < b.h then (b.w : ℚ) / (b.h : ℚ) else 0

/-- The contour filter of `detect_filled_bubbles` (lines 50-52):
`0.7 <= aspect_ratio <= 1.3 and 150 < area < 2500 and y > height * 0.35`. -/
def keepBubble (b : Bubble) (height : ℕ) : Bool :=
  decide ((7 : ℚ) / 10 ≤ aspect_ratio b) && decide (aspect_ratio b ≤ 13 / 10) &&
    decide ((150 : ℚ) < b.area) && decide (b.area < 2500) &&
    decide ((height : ℚ) * (35 / 100) < (b.y : ℚ))

/-- Sort key for `bubbles.sort(key=lambda b: b['center_y'])`. -/
def yle (a b : Bubble) : Prop := center_y a ≤ center_y b

/-- Sort key for `current_row.sort(key=lambda b: b['center_x'])`. -/
def xle (a b : Bubble) : Prop := center_x a ≤ center_x b

instance : DecidableRel yle := fun a b => inferInstanceAs (Decidable (center_y a ≤ center_y b))

instance : DecidableRel xle := fun a b => inferInstanceAs (Decidable (center_x a ≤ center_x b))

instance : IsTotal Bubble yle := ⟨fun a b => Nat.le_total (center_y a) (center_y b)⟩

instance : IsTrans Bubble yle := ⟨fun _ _ _ hab hbc => Nat.le_trans hab hbc⟩

instance : IsTotal Bubble xle := ⟨fun a b => Nat.le_total (center_x a) (center_x b)⟩

instance : IsTrans Bubble xle := ⟨fun _ _ _ hab hbc => Nat.le_trans hab hbc⟩

/-- Python's `list.sort` is stable; `List.insertionSort` is a stable sort,
so it is a faithful model of sorting by the `center_y` key. -/
def sortY (l : List Bubble) : List Bubble := l.insertionSort yle

/-- Stable sort by the `center_x` key (within a row). -/
def sortX (l : List Bubble) : List Bubble := l.insertionSort xle

/-- The inner-loop test `abs(bubbles[j]['center_y'] - current_y) <= tolerance`
with `tolerance = 30`. -/
def inBand (y0 : ℕ) (b : Bubble) : Bool := decide (|(center_y b : ℤ) - (y0 : ℤ)| ≤ 30)

/-- Row grouping of `detect_filled_bubbles` (lines 68-91), on a
`center_y`-sorted list.  The outer loop index update
`i = j if j > i + 1 else i + 1` always yields `i = j` (the inner loop
leaves `j ≥ i + 1`), i.e. the scan always continues right after the
collected tolerance band; the band itself is the `takeWhile` of the
inner `while ... else break` loop.  Structural recursion on a fuel
argument keeps the definition kernel-reducible; `rowsAux` instantiates
the fuel with the list length, which is always sufficient. -/
def rowsAuxF : ℕ → List Bubble → List (List Bubble)
  | _, [] => []
  | 0, _ :: _ => []
  | fuel + 1, b :: rest =>
    if (b :: rest.takeWhile (inBand (center_y b))).length = 4 then
      sortX (b :: rest.takeWhile (inBand (center_y b))) ::
        rowsAuxF fuel (rest.dropWhile (inBand (center_y b)))
    else
      rowsAuxF fuel (rest.dropWhile (inBand (center_y b)))

/-- Row grouping with adequate fuel. -/
def rowsAux (l : List Bubble) : List (List Bubble) := rowsAuxF l.length l

/-- The full grouping stage: sort the filtered bubbles by vertical
center, then scan them into rows of exactly 4 (`questions` in the
Python code). -/
def questionRows (bubbles : List Bubble) : List (List Bubble) := rowsAux (sortY bubbles)

/-- Modelled from the claim under examination: a grouping variant in
which a failed row attempt advances the scan by one candidate (so the
band's rejected members are scanned again) instead of jumping past the
whole band; kept only to compare with `rowsAux`. -/
def rowsAuxOneF : ℕ → List Bubble → List (List Bubble)
  | _, [] => []
  | 0, _ :: _ => []
  | fuel + 1, b :: rest =>
    if (b :: rest.takeWhile (inBand (center_y b))).length = 4 then
      sortX (b :: rest.takeWhile (inBand (center_y b))) ::
        rowsAuxOneF fuel (rest.dropWhile (inBand (center_y b)))
    else
      rowsAuxOneF fuel rest

/-- The advance-by-one grouping with adequate fuel. -/
def rowsAuxOne (l : List Bubble) : List (List Bubble) := rowsAuxOneF l.length l

/-- One entry of the `answers` list (lines 125-129 and 132-137). -/
structure AnswerResult where
  question_number : ℕ
  position : ℕ
  fill_percentages : List ℚ
deriving DecidableEq, Repr

/-- Count of white pixels of the threshold image inside the bubble's
bounding box: `np.sum(thresh[y:y+h, x:x+w] == 255)`. -/
def whitePixels (mask : ℕ → ℕ → Bool) (b : Bubble) : ℕ :=
  ((List.range b.h).map fun i =>
    ((List.range b.w).filter fun j => mask (b.y + i) (b.x + j)).length).sum

/-- Python (lines 107-109):
`fill_pct = (white_pixels / total_pixels) * 100 if total_pixels > 0 else 0`. -/
def fill_pct (mask : ℕ → ℕ → Bool) (b : Bubble) : ℚ :=
  if 0 < b.w * b.h then ((whitePixels mask b : ℚ) / ((b.w * b.h : ℕ) : ℚ)) * 100 else 0

/-- Python's `max` over a non-empty list, realised as the same left
fold; the `[]` case is unreachable in the code (guarded by
`if fill_percentages:`). -/
def maxScore : List ℚ → ℚ
  | [] => 0
  | s :: rest => rest.foldl max s

/-- Python's `round(p, 1)`: round to one decimal place, ties to even
(banker's rounding). -/
def round1 (q : ℚ) : ℚ :=
  let n : ℤ := ⌊q * 10⌋
  let frac : ℚ := q * 10 - (n : ℚ)
  let r : ℤ :=
    if frac > 1 / 2 then n + 1
    else if frac < 1 / 2 then n
    else if n % 2 = 0 then n else n + 1
  (r : ℚ) / 10

/-- The selection of lines 113-123: if the (unrounded) percentage list
is non-empty and its maximum exceeds 30, the 1-based index of the first
occurrence of the maximum (`fill_percentages.index(max_fill) + 1`),
otherwise 0. -/
def selectPosition (fill_percentages : List ℚ) : ℕ :=
  if fill_percentages.isEmpty then 0
  else if maxScore fill_percentages > 30 then
    List.indexOf (maxScore fill_percentages) fill_percentages + 1
  else 0

/-- The per-row scoring and selection of lines 98-129: compute the four
fill percentages, pick the first index attaining the maximum when that
maximum exceeds 30, otherwise report position 0; the reported
percentages are rounded to one decimal place, the selection compares
the unrounded values. -/
def answerFor (mask : ℕ → ℕ → Bool) (q_num : ℕ) (row : List Bubble) : AnswerResult :=
  { question_number := q_num
    position := selectPosition (row.map (fill_pct mask))
    fill_percentages := (row.map (fill_pct mask)).map round1 }

/-- Python slicing `l[:n]` for an integer `n` (negative `n` drops
`|n|` trailing elements). -/
def pySlice {α : Type} (l : List α) (n : ℤ) : List α :=
  if 0 ≤ n then l.take n.toNat else l.take (l.length - (-n).toNat)

/-- The padding loop of lines 132-137: append placeholder entries
(`position = 0`, empty percentage list, question numbers continuing
from the current length) until the list has `num_questions` entries. -/
def padAnswers (num_questions : ℤ) (answers : List AnswerResult) : List AnswerResult :=
  answers ++ (List.range (num_questions.toNat - answers.length)).map fun i =>
    { question_number := answers.length + i + 1, position := 0, fill_percentages := [] }

/-- The back half of `detect_filled_bubbles` (lines 94-139), taking the
already-filtered bubble candidates: group into rows, score the first
`num_questions` rows (`questions[:num_questions]`, question numbers
counted from 1), pad, and return the answers together with the bubble
and row counts. -/
def detectFromBubbles (mask : ℕ → ℕ → Bool) (bubbles : List Bubble) (num_questions : ℤ) :
    List AnswerResult × ℕ × ℕ :=
  let questions := questionRows bubbles
  let scored := (pySlice questions num_questions).enum.map fun p => answerFor mask (p.1 + 1) p.2
  (padAnswers num_questions scored, bubbles.length, questions.length)

/-- The request handler's question-count resolution (line 153):
`data.get('numberOfQuestions', 20)` — only a missing value is replaced
by the default 20. -/
def resolveNumQuestions (supplied : Option ℤ) : ℤ := supplied.getD 20

/-- 4-neighbourhood of a pixel (row, column). -/
def neighbours (p : ℕ × ℕ) : List (ℕ × ℕ) :=
  [(p.1 + 1, p.2), (p.1, p.2 + 1), (p.1 - 1, p.2), (p.1, p.2 - 1)]

/-- Modelled from the spec: fuel-bounded flood fill collecting the
connected foreground component containing the seed pixels (used to
model `cv2.findContours`, which is external library code). -/
def flood (mask : ℕ → ℕ → Bool) :
    ℕ → List (ℕ × ℕ) → List (ℕ × ℕ) → List (ℕ × ℕ)
  | 0, _, visited => visited
  | _ + 1, [], visited => visited
  | fuel + 1, p :: frontier, visited =>
    if visited.contains p || !(mask p.1 p.2) then flood mask fuel frontier visited
    else flood mask fuel (frontier ++ neighbours p) (visited ++ [p])

/-- Modelled from the spec: `cv2.findContours` is external library
code; the spec describes it as finding "all maximal connected
foreground components (external boundaries only)".  Scan the grid in
row-major order and flood-fill a new component from every foreground
pixel not already absorbed into an earlier component. -/
def findComponents (mask : ℕ → ℕ → Bool) (height width : ℕ) : List (List (ℕ × ℕ)) :=
  let pixels := (List.range height).flatMap fun i => (List.range width).map fun j => (i, j)
  (pixels.foldl
    (fun (acc : List (List (ℕ × ℕ)) × List (ℕ × ℕ)) p =>
      if mask p.1 p.2 && !(acc.2.contains p) then
        (acc.1 ++ [flood mask (height * width + 1) [p] []],
         acc.2 ++ flood mask (height * width + 1) [p] [])
      else acc)
    ([], [])).1

/-- Modelled from the spec: bounding box (`cv2.boundingRect`) and "raw
pixel area" of a component, giving the fields of a `Bubble` record. -/
def toBubble (comp : List (ℕ × ℕ)) : Bubble :=
  match comp with
  | [] => { x := 0, y := 0, w := 0, h := 0, area := 0 }
  | p :: ps =>
    let x0 := ps.foldl (fun a q => min a q.2) p.2
    let x1 := ps.foldl (fun a q => max a q.2) p.2
    let y0 := ps.foldl (fun a q => min a q.1) p.1
    let y1 := ps.foldl (fun a q => max a q.1) p.1
    { x := x0, y := y0, w := x1 - x0 + 1, h := y1 - y0 + 1, area := (p :: ps).length }

/-- The whole of `detect_filled_bubbles` from the threshold mask on:
extract components, filter them into bubble candidates, then group,
score, select and pad.  (The grayscale/blur/Otsu preprocessing that
produces the mask is external OpenCV code.) -/
def detect_filled_bubbles (mask : ℕ → ℕ → Bool) (height width : ℕ) (num_questions : ℤ) :
    List AnswerResult × ℕ × ℕ :=
  let bubbles := ((findComponents mask height width).map toBubble).filter
    fun b => keepBubble b height
  detectFromBubbles mask bubbles num_questions

/-- The candidate filter as the specification words it, with the
component's vertical center (rather than the bounding-box top edge)
compared against 35% of the image height; kept only to compare with
`keepBubble`. -/
def keepBubbleSpec (b : Bubble) (height : ℕ) : Bool :=
  decide ((7 : ℚ) / 10 ≤ aspect_ratio b) && decide (aspect_ratio b ≤ 13 / 10) &&
    decide ((150 : ℚ) < b.area) && decide (b.area < 2500) &&
    decide ((height : ℚ) * (35 / 100) < (center_y b : ℚ))

lemma length_dropWhile_le {α : Type} (p : α → Bool) (l : List α) :
    (l.dropWhile p).length ≤ l.length := by
  induction l with
  | nil => simp [List.dropWhile]
  | cons a t ih =>
    rw [List.dropWhile]
    cases p a with
    | true => exact Nat.le_trans ih (Nat.le_succ _)
    | false => exact Nat.le_refl _

/-- The fuel argument of `rowsAuxF` is irrelevant once it dominates the
list length. -/
lemma rowsAuxF_fuel : ∀ (fuel fuel' : ℕ) (l : List Bubble),
    l.length ≤ fuel → l.length ≤ fuel' → rowsAuxF fuel l = rowsAuxF fuel' l := by
  intro fuel
  induction fuel with
  | zero =>
    intro fuel' l hl _
    have : l = [] := List.length_eq_zero.mp (Nat.le_antisymm hl (Nat.zero_le _))
    subst this
    cases fuel' <;> rfl
  | succ f ih =>
    intro fuel' l hl hl'
    cases l with
    | nil => cases fuel' <;> rfl
    | cons b rest =>
      cases fuel' with
      | zero => exact absurd hl' (by simp)
      | succ f' =>
        have hrest : (rest.dropWhile (inBand (center_y b))).length ≤ f := by
          have := length_dropWhile_le (inBand (center_y b)) rest
          simp only [List.length_cons] at hl
          omega
        have hrest' : (rest.dropWhile (inBand (center_y b))).length ≤ f' := by
          have := length_dropWhile_le (inBand (center_y b)) rest
          simp only [List.length_cons] at hl'
          omega
        simp only [rowsAuxF]
        rw [ih f' _ hrest hrest']

/-- Unfolding equation for `rowsAux` on a cons cell: collect the
tolerance band of the first remaining candidate, keep it as a row iff
it has exactly 4 members, and in either case continue right after the
band. -/
lemma rowsAux_cons (b : Bubble) (rest : List Bubble) :
    rowsAux (b :: rest) =
      if (b :: rest.takeWhile (inBand (center_y b))).length = 4 then
        sortX (b :: rest.takeWhile (inBand (center_y b))) ::
          rowsAux (rest.dropWhile (inBand (center_y b)))
      else
        rowsAux (rest.dropWhile (inBand (center_y b))) := by
  have hd : (rest.dropWhile (inBand (center_y b))).length ≤ rest.length :=
    length_dropWhile_le _ _
  simp only [rowsAux, List.length_cons, rowsAuxF]
  rw [rowsAuxF_fuel rest.length (rest.dropWhile (inBand (center_y b))).length
    (rest.dropWhile (inBand (center_y b))) hd (Nat.le_refl _)]

@[simp] lemma rowsAux_nil : rowsAux [] = [] := rfl

section MaxIndexLemmas

lemma le_foldl_max (a : ℚ) (l : List ℚ) :
    a ≤ l.foldl max a ∧ ∀ x ∈ l, x ≤ l.foldl max a := by
  induction l generalizing a with
  | nil => simp
  | cons s t ih =>
    simp only [List.foldl_cons, List.mem_cons]
    refine ⟨le_trans (le_max_left a s) (ih (max a s)).1, ?_⟩
    rintro x (rfl | hx)
    · exact le_trans (le_max_right a x) (ih (max a x)).1
    · exact (ih (max a s)).2 x hx

lemma foldl_max_mem (a : ℚ) (l : List ℚ) : l.foldl max a = a ∨ l.foldl max a ∈ l := by
  induction l generalizing a with
  | nil => left; rfl
  | cons s t ih =>
    simp only [List.foldl_cons, List.mem_cons]
    rcases ih (max a s) with h | h
    · rcases max_choice a s with h2 | h2
      · left; rw [h, h2]
      · right; left; rw [h, h2]
    · right; right; exact h

lemma maxScore_mem {l : List ℚ} (hl : l ≠ []) : maxScore l ∈ l := by
  cases l with
  | nil => exact absurd rfl hl
  | cons s t =>
    rcases foldl_max_mem s t with h | h
    · simp [maxScore, h]
    · simp [maxScore, List.mem_cons]
      right
      exact h

lemma le_maxScore {l : List ℚ} {x : ℚ} (hx : x ∈ l) : x ≤ maxScore l := by
  cases l with
  | nil => cases hx
  | cons s t =>
    rcases List.mem_cons.mp hx with rfl | hx
    · exact (le_foldl_max x t).1
    · exact (le_foldl_max s t).2 x hx

lemma get_ne_of_lt_indexOf {l : List ℚ} {m : ℚ} {j : ℕ} (hj : j < l.length)
    (hlt : j < List.indexOf m l) : l.get ⟨j, hj⟩ ≠ m := by
  induction l generalizing j with
  | nil => simp at hj
  | cons a t ih =>
    by_cases ha : a = m
    · rw [ha, List.indexOf_cons_self] at hlt
      exact absurd hlt (Nat.not_lt_zero j)
    · cases j with
      | zero => simpa using ha
      | succ j' =>
        rw [List.indexOf_cons_ne t ha] at hlt
        exact ih (Nat.lt_of_succ_lt_succ hj) (Nat.lt_of_succ_lt_succ hlt)

/-- Full behavioural description of `selectPosition` on a non-empty
score list: threshold at 30, first-occurrence maximum, 1-based. -/
lemma selectPosition_spec (scores : List ℚ) (hne : scores ≠ []) :
    (maxScore scores ≤ 30 → selectPosition scores = 0) ∧
    (30 < maxScore scores →
      1 ≤ selectPosition scores ∧ selectPosition scores ≤ scores.length ∧
      ∃ hp : selectPosition scores - 1 < scores.length,
        scores.get ⟨selectPosition scores - 1, hp⟩ = maxScore scores ∧
        (∀ j (hj : j < scores.length), scores.get ⟨j, hj⟩ ≤ maxScore scores) ∧
        ∀ j (hj : j < scores.length), j < selectPosition scores - 1 →
          scores.get ⟨j, hj⟩ < maxScore scores) := by
  have hemp : scores.isEmpty = false := by
    cases scores with
    | nil => exact absurd rfl hne
    | cons s t => rfl
  constructor
  · intro hle
    rw [selectPosition, hemp]
    simp only [Bool.false_eq_true, if_false]
    rw [if_neg (by exact not_lt.mpr hle)]
  · intro hgt
    have hmem : maxScore scores ∈ scores := maxScore_mem hne
    have hidx : List.indexOf (maxScore scores) scores < scores.length :=
      List.indexOf_lt_length.mpr hmem
    have hsel : selectPosition scores = List.indexOf (maxScore scores) scores + 1 := by
      rw [selectPosition, hemp]
      simp only [Bool.false_eq_true, if_false]
      rw [if_pos hgt]
    refine ⟨by omega, by omega, ?_⟩
    have hp : selectPosition scores - 1 < scores.length := by omega
    refine ⟨hp, ?_, ?_, ?_⟩
    · have : selectPosition scores - 1 = List.indexOf (maxScore scores) scores := by omega
      simp only [this]
      exact List.indexOf_get hidx
    · intro j hj
      exact le_maxScore (scores.get_mem _ _)
    · intro j hj hjlt
      have hne' : scores.get ⟨j, hj⟩ ≠ maxScore scores :=
        get_ne_of_lt_indexOf hj (by omega)
      exact lt_of_le_of_ne (le_maxScore (scores.get_mem _ _)) hne'

end MaxIndexLemmas

/-- C1: for every question row, the answer selector picks the 1-based
position of the maximum fill score when that maximum strictly exceeds
30, otherwise 0; ties go to the lowest-indexed (left-most) position. -/
theorem c1_selection (mask : ℕ → ℕ → Bool) (q_num : ℕ) (row : List Bubble)
    (h4 : row.length = 4) :
    (answerFor mask q_num row).position = selectPosition (row.map (fill_pct mask)) ∧
    (maxScore (row.map (fill_pct mask)) ≤ 30 →
      selectPosition (row.map (fill_pct mask)) = 0) ∧
    (30 < maxScore (row.map (fill_pct mask)) →
      1 ≤ selectPosition (row.map (fill_pct mask)) ∧
      selectPosition (row.map (fill_pct mask)) ≤ 4 ∧
      ∃ hp : selectPosition (row.map (fill_pct mask)) - 1 < (row.map (fill_pct mask)).length,
        (row.map (fill_pct mask)).get ⟨selectPosition (row.map (fill_pct mask)) - 1, hp⟩ =
          maxScore (row.map (fill_pct mask)) ∧
        (∀ j (hj : j < (row.map (fill_pct mask)).length),
          (row.map (fill_pct mask)).get ⟨j, hj⟩ ≤ maxScore (row.map (fill_pct mask))) ∧
        ∀ j (hj : j < (row.map (fill_pct mask)).length),
          j < selectPosition (row.map (fill_pct mask)) - 1 →
          (row.map (fill_pct mask)).get ⟨j, hj⟩ < maxScore (row.map (fill_pct mask))) := by
  have hlen : (row.map (fill_pct mask)).length = 4 := by
    rw [List.length_map, h4]
  have hne : row.map (fill_pct mask) ≠ [] := by
    intro h
    rw [h] at hlen
    exact absurd hlen (by simp)
  have hs := selectPosition_spec (row.map (fill_pct mask)) hne
  refine ⟨rfl, hs.1, fun hgt => ?_⟩
  obtain ⟨h1, h2, hrest⟩ := hs.2 hgt
  exact ⟨h1, hlen ▸ h2, hrest⟩

/-- Witness for C1 at a concrete row whose four bubbles are fully
filled: the selector reports position 1. -/
theorem c1_selection_witness :
    (answerFor (fun _ _ => true) 1
        [⟨0, 0, 10, 10, 200⟩, ⟨2, 2, 7, 7, 200⟩, ⟨20, 0, 10, 10, 200⟩,
          ⟨40, 0, 10, 10, 200⟩]).position =
      selectPosition
        (([⟨0, 0, 10, 10, 200⟩, ⟨2, 2, 7, 7, 200⟩, ⟨20, 0, 10, 10, 200⟩,
          ⟨40, 0, 10, 10, 200⟩] : List Bubble).map (fill_pct (fun _ _ => true))) :=
  (c1_selection (fun _ _ => true) 1
    [⟨0, 0, 10, 10, 200⟩, ⟨2, 2, 7, 7, 200⟩, ⟨20, 0, 10, 10, 200⟩,
      ⟨40, 0, 10, 10, 200⟩] rfl).1

/-- C3 counterexample: the component with bounding box x=0, y=30,
w=20, h=20 and area 400 in an image of height 100 has its vertical
center (40) below 35% of the image height, near-square aspect ratio
and in-range area, so the claim's filter keeps it; the code's filter
compares the bounding-box top edge (30) against 35 and rejects it. -/
theorem c3_counterexample :
    keepBubble ⟨0, 30, 20, 20, 400⟩ 100 = false ∧
    keepBubbleSpec ⟨0, 30, 20, 20, 400⟩ 100 = true := by
  constructor <;> norm_num [keepBubble, keepBubbleSpec, aspect_ratio, center_y]

/-- C3 (amended): a component is kept iff its aspect ratio lies in
[0.7, 1.3], its area lies strictly between 150 and 2500, and its
bounding-box top edge (not its vertical center) lies below 35% of the
image height. -/
theorem c3_filter_characterization (b : Bubble) (height : ℕ) :
    keepBubble b height = true ↔
      ((7 : ℚ) / 10 ≤ (b.w : ℚ) / (b.h : ℚ) ∧ (b.w : ℚ) / (b.h : ℚ) ≤ 13 / 10 ∧
        (150 : ℚ) < b.area ∧ b.area < 2500 ∧
        (height : ℚ) * (35 / 100) < (b.y : ℚ)) := by
  simp only [keepBubble, Bool.and_eq_true, decide_eq_true_eq, aspect_ratio]
  by_cases hh : 0 < b.h
  · rw [if_pos hh]
    tauto
  · rw [if_neg hh]
    have hb : (b.h : ℚ) = 0 := by
      have : b.h = 0 := Nat.eq_zero_of_not_pos hh
      rw [this]
      norm_num
    rw [hb, div_zero]
    constructor
    · rintro ⟨⟨⟨⟨h7, _⟩, _⟩, _⟩, _⟩
      exact absurd h7 (by norm_num)
    · rintro ⟨h7, _⟩
      exact absurd h7 (by norm_num)

/-- C9: a component with zero bounding-box height is rejected by the
filter, and its aspect ratio is defined to be 0 by the guard
`w / float(h) if h > 0 else 0` rather than computed by a division. -/
theorem c9_zero_height_rejected (b : Bubble) (height : ℕ) (h0 : b.h = 0) :
    aspect_ratio b = 0 ∧ keepBubble b height = false := by
  have har : aspect_ratio b = 0 := by
    rw [aspect_ratio, if_neg (by omega)]
  refine ⟨har, ?_⟩
  rw [keepBubble, har]
  have : decide ((7 : ℚ) / 10 ≤ 0) = false := by
    rw [decide_eq_false_iff_not]
    norm_num
  rw [this]
  simp

/-- Witness for C9: the degenerate component with w = 5, h = 0. -/
theorem c9_zero_height_rejected_witness :
    aspect_ratio ⟨0, 40, 5, 0, 200⟩ = 0 ∧ keepBubble ⟨0, 40, 5, 0, 200⟩ 100 = false :=
  c9_zero_height_rejected ⟨0, 40, 5, 0, 200⟩ 100 rfl

/-- C10: fill scoring is total — a degenerate bounding box scores 0
instead of dividing by zero — and a positive-size box scores the exact
foreground fraction as a percentage; the reported per-bubble list is
the rounded scores while the selected position is computed from the
unrounded ones. -/
theorem c10_fill_total (mask : ℕ → ℕ → Bool) (q_num : ℕ) (row : List Bubble) :
    (∀ b ∈ row, b.w * b.h = 0 → fill_pct mask b = 0) ∧
    (∀ b ∈ row, 0 < b.w * b.h →
      fill_pct mask b = ((whitePixels mask b : ℚ) / ((b.w * b.h : ℕ) : ℚ)) * 100) ∧
    (answerFor mask q_num row).fill_percentages = (row.map (fill_pct mask)).map round1 ∧
    (answerFor mask q_num row).position = selectPosition (row.map (fill_pct mask)) := by
  refine ⟨?_, ?_, rfl, rfl⟩
  · intro b _ hb
    rw [fill_pct, if_neg (by omega)]
  · intro b _ hb
    rw [fill_pct, if_pos hb]

/-- Witness for C10 at a zero-width bubble and a 1-by-1 bubble. -/
theorem c10_fill_total_witness :
    fill_pct (fun _ _ => true) ⟨3, 4, 0, 7, 0⟩ = 0 ∧
    fill_pct (fun _ _ => true) ⟨3, 4, 1, 1, 1⟩ =
      ((whitePixels (fun _ _ => true) ⟨3, 4, 1, 1, 1⟩ : ℚ) / ((1 * 1 : ℕ) : ℚ)) * 100 :=
  ⟨(c10_fill_total (fun _ _ => true) 1 [⟨3, 4, 0, 7, 0⟩]).1 ⟨3, 4, 0, 7, 0⟩
      (List.mem_singleton_self _) rfl,
    (c10_fill_total (fun _ _ => true) 1 [⟨3, 4, 1, 1, 1⟩]).2.1 ⟨3, 4, 1, 1, 1⟩
      (List.mem_singleton_self _) (by decide)⟩

section GroupingLemmas

lemma sortX_perm (l : List Bubble) : (sortX l).Perm l := List.perm_insertionSort xle l

lemma sortY_perm (l : List Bubble) : (sortY l).Perm l := List.perm_insertionSort yle l

lemma rowsAux_length_four_aux :
    ∀ (n : ℕ) (l : List Bubble), l.length ≤ n → ∀ r ∈ rowsAux l, r.length = 4 := by
  intro n
  induction n with
  | zero =>
    intro l hl
    have : l = [] := List.length_eq_zero.mp (Nat.le_antisymm hl (Nat.zero_le _))
    subst this
    simp
  | succ n ih =>
    intro l hl
    cases l with
    | nil => simp
    | cons b rest =>
      have hd : (rest.dropWhile (inBand (center_y b))).length ≤ n := by
        have := length_dropWhile_le (inBand (center_y b)) rest
        simp only [List.length_cons] at hl
        omega
      rw [rowsAux_cons]
      split
      case isTrue hfour =>
        intro r hr
        rcases List.mem_cons.mp hr with rfl | hr
        · rw [(sortX_perm _).length_eq, hfour]
        · exact ih _ hd r hr
      case isFalse hfour =>
        intro r hr
        exact ih _ hd r hr

/-- Every accepted row has exactly 4 members. -/
lemma rowsAux_length_four (l : List Bubble) : ∀ r ∈ rowsAux l, r.length = 4 :=
  rowsAux_length_four_aux l.length l (Nat.le_refl _)

lemma questionRows_length_four (bubbles : List Bubble) :
    ∀ r ∈ questionRows bubbles, r.length = 4 :=
  rowsAux_length_four (sortY bubbles)

lemma sortY_sorted (l : List Bubble) : (sortY l).Sorted yle :=
  List.sorted_insertionSort yle l

lemma sortX_sorted (l : List Bubble) : (sortX l).Sorted xle :=
  List.sorted_insertionSort xle l

/-- On candidates at or below the anchor, the code's absolute-value
band test reduces to the one-sided bound `center_y ≤ y0 + 30`. -/
lemma inBand_lower {y0 : ℕ} {b : Bubble} (h : y0 ≤ center_y b) :
    inBand y0 b = decide (center_y b ≤ y0 + 30) := by
  simp only [inBand, decide_eq_decide]
  rw [abs_le]
  omega

/-- On a `center_y`-sorted tail whose members all sit at or below the
anchor `y0`, the inner scan's `takeWhile`/`dropWhile` split is exactly
the filter split by the band predicate (the predicate is false-stable
along the sorted list). -/
lemma band_split {y0 : ℕ} :
    ∀ {l : List Bubble}, l.Sorted yle → (∀ b ∈ l, y0 ≤ center_y b) →
      l.takeWhile (inBand y0) = l.filter (inBand y0) ∧
      l.dropWhile (inBand y0) = l.filter (fun b => !(inBand y0 b)) := by
  intro l
  induction l with
  | nil => intro _ _; exact ⟨rfl, rfl⟩
  | cons a t ih =>
    intro hs hlb
    obtain ⟨hat, hts⟩ := List.sorted_cons.mp hs
    have ha : y0 ≤ center_y a := hlb a (List.mem_cons_self _ _)
    have hband : inBand y0 a = decide (center_y a ≤ y0 + 30) := inBand_lower ha
    by_cases hle : center_y a ≤ y0 + 30
    · have hpa : inBand y0 a = true := by rw [hband]; exact decide_eq_true hle
      obtain ⟨iht, ihd⟩ := ih hts fun b hb => hlb b (List.mem_cons_of_mem _ hb)
      rw [List.takeWhile_cons_of_pos hpa, List.dropWhile_cons_of_pos hpa,
        List.filter_cons_of_pos hpa,
        @List.filter_cons_of_neg _ (fun b => !(inBand y0 b)) a t (by simp [hpa])]
      exact ⟨by rw [iht], ihd⟩
    · have hpa : inBand y0 a = false := by rw [hband]; exact decide_eq_false hle
      have hbfalse : ∀ b ∈ t, inBand y0 b = false := by
        intro b hb
        rw [inBand_lower (hlb b (List.mem_cons_of_mem _ hb))]
        have h2 : center_y a ≤ center_y b := hat b hb
        exact decide_eq_false (by omega)
      rw [List.takeWhile_cons_of_neg (by simp [hpa]),
        List.dropWhile_cons_of_neg (by simp [hpa]),
        @List.filter_cons_of_neg _ (inBand y0) a t (by simp [hpa]),
        @List.filter_cons_of_pos _ (fun b => !(inBand y0 b)) a t (by simp [hpa])]
      constructor
      · rw [List.filter_eq_nil_iff.mpr fun b hb => by simp [hbfalse b hb]]
      · congr 1
        exact (List.filter_eq_self.mpr fun b hb => by simp [hbfalse b hb]).symm

/-- No candidate appears in two rows: the concatenation of all
produced rows is a sub-permutation of the scanned list. -/
lemma rowsAux_flatten_subperm : ∀ (n : ℕ) (l : List Bubble), l.length ≤ n →
    ((rowsAux l).flatten).Subperm l := by
  intro n
  induction n with
  | zero =>
    intro l hl
    have : l = [] := List.length_eq_zero.mp (Nat.le_antisymm hl (Nat.zero_le _))
    subst this
    exact List.nil_subperm
  | succ n ih =>
    intro l hl
    cases l with
    | nil => exact List.nil_subperm
    | cons b rest =>
      have hd : (rest.dropWhile (inBand (center_y b))).length ≤ n := by
        have := length_dropWhile_le (inBand (center_y b)) rest
        simp only [List.length_cons] at hl
        omega
      rw [rowsAux_cons]
      split
      case isTrue hfour =>
        rw [List.flatten_cons]
        obtain ⟨u, hup, hus⟩ := ih _ hd
        refine ⟨(b :: rest.takeWhile (inBand (center_y b))) ++ u, ?_, ?_⟩
        · exact List.Perm.append (sortX_perm _).symm hup
        · rw [List.cons_append]
          apply List.Sublist.cons₂
          have h1 : List.Sublist (rest.takeWhile (inBand (center_y b)) ++ u)
              (rest.takeWhile (inBand (center_y b)) ++ rest.dropWhile (inBand (center_y b))) :=
            List.Sublist.append_left hus _
          rwa [List.takeWhile_append_dropWhile] at h1
      case isFalse hfour =>
        exact (ih _ hd).trans
          (((List.dropWhile_sublist _).trans (List.sublist_cons_self b rest)).subperm)

/-- Every member of a produced row comes from the scanned list. -/
lemma rowsAux_mem_mem {l : List Bubble} {r : List Bubble} (hr : r ∈ rowsAux l) :
    ∀ {b : Bubble}, b ∈ r → b ∈ l := by
  intro b hb
  have hbf : b ∈ (rowsAux l).flatten := List.mem_flatten.mpr ⟨r, hr, hb⟩
  exact (rowsAux_flatten_subperm l.length l (Nat.le_refl _)).subset hbf

/-- Structural facts about each produced row on a sorted scan list:
4 members, sorted left-to-right, and all vertical centers within a
30-wide band `[y0, y0 + 30]` anchored at the row's first-scanned
member. -/
lemma rowsAux_rows_spec : ∀ (n : ℕ) (l : List Bubble), l.length ≤ n → l.Sorted yle →
    ∀ r ∈ rowsAux l, r.length = 4 ∧ r.Sorted xle ∧
      ∃ y0, ∀ b ∈ r, y0 ≤ center_y b ∧ center_y b ≤ y0 + 30 := by
  intro n
  induction n with
  | zero =>
    intro l hl _
    have : l = [] := List.length_eq_zero.mp (Nat.le_antisymm hl (Nat.zero_le _))
    subst this
    simp
  | succ n ih =>
    intro l hl hs
    cases l with
    | nil => simp
    | cons b rest =>
      obtain ⟨hbt, hts⟩ := List.sorted_cons.mp hs
      have hd : (rest.dropWhile (inBand (center_y b))).length ≤ n := by
        have := length_dropWhile_le (inBand (center_y b)) rest
        simp only [List.length_cons] at hl
        omega
      have hsd : (rest.dropWhile (inBand (center_y b))).Sorted yle :=
        List.Pairwise.sublist (List.dropWhile_sublist _) hts
      rw [rowsAux_cons]
      split
      case isTrue hfour =>
        intro r hr
        rcases List.mem_cons.mp hr with rfl | hr
        · refine ⟨by rw [(sortX_perm _).length_eq]; exact hfour, sortX_sorted _,
            center_y b, ?_⟩
          intro c hc
          have hcband : c ∈ b :: rest.takeWhile (inBand (center_y b)) :=
            (sortX_perm _).subset hc
          rcases List.mem_cons.mp hcband with rfl | hcb
          · omega
          · have hpc : inBand (center_y b) c = true := List.mem_takeWhile_imp hcb
            have hcy : center_y b ≤ center_y c :=
              hbt c ((List.takeWhile_sublist _).subset hcb)
            simp only [inBand, decide_eq_true_eq] at hpc
            rw [abs_le] at hpc
            omega
        · exact ih _ hd hsd r hr
      case isFalse hfour =>
        intro r hr
        exact ih _ hd hsd r hr

/-- Distinct produced rows are strictly separated vertically: every
member of an earlier row has a strictly smaller vertical center than
every member of a later row. -/
lemma rowsAux_pairwise_sep : ∀ (n : ℕ) (l : List Bubble), l.length ≤ n → l.Sorted yle →
    (rowsAux l).Pairwise fun r₁ r₂ => ∀ a ∈ r₁, ∀ c ∈ r₂, center_y a < center_y c := by
  intro n
  induction n with
  | zero =>
    intro l hl _
    have : l = [] := List.length_eq_zero.mp (Nat.le_antisymm hl (Nat.zero_le _))
    subst this
    simp
  | succ n ih =>
    intro l hl hs
    cases l with
    | nil => simp
    | cons b rest =>
      obtain ⟨hbt, hts⟩ := List.sorted_cons.mp hs
      have hd : (rest.dropWhile (inBand (center_y b))).length ≤ n := by
        have := length_dropWhile_le (inBand (center_y b)) rest
        simp only [List.length_cons] at hl
        omega
      have hsd : (rest.dropWhile (inBand (center_y b))).Sorted yle :=
        List.Pairwise.sublist (List.dropWhile_sublist _) hts
      have htail := ih _ hd hsd
      rw [rowsAux_cons]
      split
      case isTrue hfour =>
        refine List.Pairwise.cons ?_ htail
        intro r₂ hr₂ a ha c hc
        have ha' : a ∈ b :: rest.takeWhile (inBand (center_y b)) :=
          (sortX_perm _).subset ha
        have haup : center_y a ≤ center_y b + 30 := by
          rcases List.mem_cons.mp ha' with rfl | hat
          · omega
          · have hpa : inBand (center_y b) a = true := List.mem_takeWhile_imp hat
            simp only [inBand, decide_eq_true_eq] at hpa
            rw [abs_le] at hpa
            omega
        have hc' : c ∈ rest.dropWhile (inBand (center_y b)) := rowsAux_mem_mem hr₂ hc
        have hdrop := (band_split hts hbt).2
        rw [hdrop] at hc'
        have hcf := (List.mem_filter.mp hc').2
        have hcb : inBand (center_y b) c = false := by
          simpa using hcf
        have hcrest : c ∈ rest := (List.filter_sublist _).subset hc'
        have hlow : center_y b ≤ center_y c := hbt c hcrest
        rw [inBand_lower hlow] at hcb
        have := of_decide_eq_false hcb
        omega
      case isFalse hfour =>
        exact htail

/-- Two sorted permutation-equal lists start at the same minimal
vertical center. -/
lemma head_center_y_eq {a a' : Bubble} {t t' : List Bubble}
    (hp : (a :: t).Perm (a' :: t')) (hs : (a :: t).Sorted yle)
    (hs' : (a' :: t').Sorted yle) : center_y a = center_y a' := by
  obtain ⟨hat, _⟩ := List.sorted_cons.mp hs
  obtain ⟨hat', _⟩ := List.sorted_cons.mp hs'
  have h1 : a' ∈ a :: t := hp.symm.subset (List.mem_cons_self _ _)
  have h2 : a ∈ a' :: t' := hp.subset (List.mem_cons_self _ _)
  apply Nat.le_antisymm
  · rcases List.mem_cons.mp h1 with heq | hmem
    · rw [heq]
    · exact hat a' hmem
  · rcases List.mem_cons.mp h2 with heq | hmem
    · rw [heq]
    · exact hat' a hmem

/-- Permutation invariance of the scan on sorted inputs: two sorted
lists that are permutations of each other produce the same number of
rows, pointwise equal as multisets. -/
lemma rowsAux_perm_aux : ∀ (n : ℕ) {l l' : List Bubble}, l.length ≤ n → l.Perm l' →
    l.Sorted yle → l'.Sorted yle →
    List.Forall₂ (fun r r' => r.Perm r') (rowsAux l) (rowsAux l') := by
  intro n
  induction n with
  | zero =>
    intro l l' hl hp _ _
    have : l = [] := List.length_eq_zero.mp (Nat.le_antisymm hl (Nat.zero_le _))
    subst this
    have : l' = [] := hp.symm.eq_nil
    subst this
    exact List.Forall₂.nil
  | succ n ih =>
    intro l l' hl hp hs hs'
    cases l with
    | nil =>
      have : l' = [] := hp.symm.eq_nil
      subst this
      exact List.Forall₂.nil
    | cons a t =>
      cases l' with
      | nil => cases (by simpa using hp.eq_nil : (a :: t) = [])
      | cons a' t' =>
        have hy : center_y a = center_y a' := head_center_y_eq hp hs hs'
        obtain ⟨hat, hts⟩ := List.sorted_cons.mp hs
        obtain ⟨hat', hts'⟩ := List.sorted_cons.mp hs'
        obtain ⟨htake, hdrop⟩ := @band_split (center_y a) t hts hat
        obtain ⟨htake', hdrop'⟩ := @band_split (center_y a') t' hts' hat'
        rw [rowsAux_cons, rowsAux_cons, htake, hdrop, htake', hdrop']
        simp only [← hy]
        have hfa : inBand (center_y a) a = true := by
          simp [inBand]
        have hfa' : inBand (center_y a) a' = true := by
          simp [inBand, ← hy]
        have hqa : ¬((fun b => !(inBand (center_y a) b)) a = true) := by
          simp [hfa]
        have hqa' : ¬((fun b => !(inBand (center_y a) b)) a' = true) := by
          simp [hfa']
        have hBperm : (a :: t.filter (inBand (center_y a))).Perm
            (a' :: t'.filter (inBand (center_y a))) := by
          have h1 : (a :: t).filter (inBand (center_y a)) =
              a :: t.filter (inBand (center_y a)) := List.filter_cons_of_pos hfa
          have h2 : (a' :: t').filter (inBand (center_y a)) =
              a' :: t'.filter (inBand (center_y a)) := List.filter_cons_of_pos hfa'
          have h3 := hp.filter (inBand (center_y a))
          rwa [h1, h2] at h3
        have hRperm : (t.filter fun b => !(inBand (center_y a) b)).Perm
            (t'.filter fun b => !(inBand (center_y a) b)) := by
          have h1 : (a :: t).filter (fun b => !(inBand (center_y a) b)) =
              t.filter (fun b => !(inBand (center_y a) b)) :=
            @List.filter_cons_of_neg _ (fun b => !(inBand (center_y a) b)) a t hqa
          have h2 : (a' :: t').filter (fun b => !(inBand (center_y a) b)) =
              t'.filter (fun b => !(inBand (center_y a) b)) :=
            @List.filter_cons_of_neg _ (fun b => !(inBand (center_y a) b)) a' t' hqa'
          have h3 := hp.filter fun b => !(inBand (center_y a) b)
          rwa [h1, h2] at h3
        have hlenB : (a :: t.filter (inBand (center_y a))).length =
            (a' :: t'.filter (inBand (center_y a))).length := hBperm.length_eq
        have hsd : (t.filter fun b => !(inBand (center_y a) b)).Sorted yle :=
          List.Pairwise.sublist (List.filter_sublist _) hts
        have hsd' : (t'.filter fun b => !(inBand (center_y a) b)).Sorted yle :=
          List.Pairwise.sublist (List.filter_sublist _) hts'
        have hlend : (t.filter fun b => !(inBand (center_y a) b)).length ≤ n := by
          have h1 := List.length_filter_le (fun b => !(inBand (center_y a) b)) t
          simp only [List.length_cons] at hl
          omega
        by_cases h4 : (a :: t.filter (inBand (center_y a))).length = 4
        · rw [if_pos h4, if_pos (by rw [← hlenB]; exact h4)]
          exact List.Forall₂.cons
            (((sortX_perm _).trans hBperm).trans (sortX_perm _).symm)
            (ih hlend hRperm hsd hsd')
        · rw [if_neg h4, if_neg (by rw [← hlenB]; exact h4)]
          exact ih hlend hRperm hsd hsd'

/-- Two permutation-equal lists that are both sorted by a key taking
distinct values on the first list are equal. -/
lemma eq_of_perm_sortedX : ∀ {s t : List Bubble}, s.Perm t → s.Sorted xle →
    t.Sorted xle → (s.map center_x).Nodup → s = t := by
  intro s
  induction s with
  | nil =>
    intro t hp _ _ _
    exact hp.symm.eq_nil.symm
  | cons a s₁ ih =>
    intro t hp hs ht hnd
    cases t with
    | nil => cases (by simpa using hp.eq_nil : (a :: s₁) = [])
    | cons b t₁ =>
      by_cases hab : a = b
      · subst hab
        obtain ⟨-, hs₁⟩ := List.sorted_cons.mp hs
        obtain ⟨-, ht₁⟩ := List.sorted_cons.mp ht
        have hnd₁ : (s₁.map center_x).Nodup := by
          simp only [List.map_cons, List.nodup_cons] at hnd
          exact hnd.2
        rw [ih hp.cons_inv hs₁ ht₁ hnd₁]
      · exfalso
        have hbmem : b ∈ a :: s₁ := hp.symm.subset (List.mem_cons_self _ _)
        have hamem : a ∈ b :: t₁ := hp.subset (List.mem_cons_self _ _)
        have hbs₁ : b ∈ s₁ := by
          rcases List.mem_cons.mp hbmem with h | h
          · exact absurd h.symm hab
          · exact h
        have hat₁ : a ∈ t₁ := by
          rcases List.mem_cons.mp hamem with h | h
          · exact absurd h hab
          · exact h
        have h1 : center_x a ≤ center_x b := (List.sorted_cons.mp hs).1 b hbs₁
        have h2 : center_x b ≤ center_x a := (List.sorted_cons.mp ht).1 a hat₁
        have hxy : center_x a = center_x b := Nat.le_antisymm h1 h2
        simp only [List.map_cons, List.nodup_cons] at hnd
        exact hnd.1 (hxy ▸ List.mem_map_of_mem center_x hbs₁)

/-- When all candidates have pairwise distinct horizontal centers, so
do the members of every produced row. -/
lemma rowsAux_row_nodupX {l : List Bubble} (hnd : (l.map center_x).Nodup)
    {r : List Bubble} (hr : r ∈ rowsAux l) : (r.map center_x).Nodup := by
  have hsub : r.Subperm l :=
    ((List.sublist_flatten_of_mem hr).subperm).trans
      (rowsAux_flatten_subperm l.length l (Nat.le_refl _))
  obtain ⟨u, hup, hus⟩ := hsub
  have h1 : (u.map center_x).Nodup := List.Nodup.sublist (hus.map center_x) hnd
  exact (hup.map center_x).nodup h1

lemma forall₂_perm_rows_eq : ∀ {R R' : List (List Bubble)},
    List.Forall₂ (fun r r' => r.Perm r') R R' →
    (∀ r ∈ R, r.Sorted xle ∧ (r.map center_x).Nodup) →
    (∀ r' ∈ R', r'.Sorted xle) → R = R' := by
  intro R R' h
  induction h with
  | nil => intro _ _; rfl
  | @cons r r' S S' hpair htail ih =>
    intro h1 h2
    have hhead := eq_of_perm_sortedX hpair (h1 r (List.mem_cons_self _ _)).1
      (h2 r' (List.mem_cons_self _ _)) (h1 r (List.mem_cons_self _ _)).2
    rw [hhead, ih (fun x hx => h1 x (List.mem_cons_of_mem _ hx))
      (fun x hx => h2 x (List.mem_cons_of_mem _ hx))]

end GroupingLemmas

/-- C4 counterexample: on seven candidates — two sharing one vertical
band, five sharing another — the code finds no rows (each failed band
is skipped whole), while the advance-by-one scan described by the
claim would re-enter the five-candidate band one position later and
accept a row of 4 there. -/
theorem c4_counterexample :
    rowsAux [⟨0, 0, 0, 0, 0⟩, ⟨10, 0, 0, 0, 0⟩, ⟨0, 100, 0, 0, 0⟩, ⟨10, 100, 0, 0, 0⟩,
        ⟨20, 100, 0, 0, 0⟩, ⟨30, 100, 0, 0, 0⟩, ⟨40, 100, 0, 0, 0⟩] = [] ∧
    rowsAuxOne [⟨0, 0, 0, 0, 0⟩, ⟨10, 0, 0, 0, 0⟩, ⟨0, 100, 0, 0, 0⟩, ⟨10, 100, 0, 0, 0⟩,
        ⟨20, 100, 0, 0, 0⟩, ⟨30, 100, 0, 0, 0⟩, ⟨40, 100, 0, 0, 0⟩] ≠ [] := by
  constructor <;> decide

/-- C4 (amended): when the tolerance band collected from the current
candidate does not have exactly 4 members, no row is produced and the
scan resumes at the first candidate past the whole band (it does not
advance by just one candidate); no candidate is ever reconsidered or
placed in two rows — the concatenation of all produced rows is a
sub-permutation of the scanned list. -/
theorem c4_failed_band_skipped (b : Bubble) (rest : List Bubble)
    (hfail : (b :: rest.takeWhile (inBand (center_y b))).length ≠ 4) :
    rowsAux (b :: rest) = rowsAux (rest.dropWhile (inBand (center_y b))) ∧
    ((rowsAux (b :: rest)).flatten).Subperm (b :: rest) := by
  refine ⟨?_, rowsAux_flatten_subperm (b :: rest).length _ (Nat.le_refl _)⟩
  rw [rowsAux_cons, if_neg hfail]

/-- Witness for C4 at a single candidate (a band of size 1 fails). -/
theorem c4_failed_band_skipped_witness :
    rowsAux [(⟨0, 0, 0, 0, 0⟩ : Bubble)] =
      rowsAux (List.dropWhile (inBand (center_y ⟨0, 0, 0, 0, 0⟩)) []) ∧
    ((rowsAux [(⟨0, 0, 0, 0, 0⟩ : Bubble)]).flatten).Subperm [⟨0, 0, 0, 0, 0⟩] :=
  c4_failed_band_skipped ⟨0, 0, 0, 0, 0⟩ [] (by decide)

/-- C7: every accepted row has exactly 4 members, all vertical centers
pairwise within the 30-pixel tolerance, and is ordered left-to-right
by horizontal center; distinct rows are strictly ordered top-to-bottom
(every member of an earlier row lies strictly above every member of a
later row), which is what gives the question numbering. -/
theorem c7_row_invariants (bubbles : List Bubble) :
    (∀ r ∈ questionRows bubbles, r.length = 4 ∧ r.Sorted xle ∧
      ∀ a ∈ r, ∀ c ∈ r, |(center_y a : ℤ) - (center_y c : ℤ)| ≤ 30) ∧
    (questionRows bubbles).Pairwise
      (fun r₁ r₂ => ∀ a ∈ r₁, ∀ c ∈ r₂, center_y a < center_y c) := by
  constructor
  · intro r hr
    obtain ⟨h4, hsx, y0, hy⟩ := rowsAux_rows_spec (sortY bubbles).length _
      (Nat.le_refl _) (sortY_sorted _) r hr
    refine ⟨h4, hsx, ?_⟩
    intro a ha c hc
    obtain ⟨h1a, h2a⟩ := hy a ha
    obtain ⟨h1c, h2c⟩ := hy c hc
    rw [abs_le]
    omega
  · exact rowsAux_pairwise_sep (sortY bubbles).length _ (Nat.le_refl _) (sortY_sorted _)

/-- Witness for C7 at a concrete 4-candidate list forming one row. -/
theorem c7_row_invariants_witness :
    ((∀ r ∈ questionRows [⟨0, 0, 10, 10, 200⟩, ⟨20, 0, 10, 10, 200⟩,
        ⟨40, 0, 10, 10, 200⟩, ⟨60, 0, 10, 10, 200⟩], r.length = 4 ∧ r.Sorted xle ∧
      ∀ a ∈ r, ∀ c ∈ r, |(center_y a : ℤ) - (center_y c : ℤ)| ≤ 30) ∧
    (questionRows [⟨0, 0, 10, 10, 200⟩, ⟨20, 0, 10, 10, 200⟩,
        ⟨40, 0, 10, 10, 200⟩, ⟨60, 0, 10, 10, 200⟩]).Pairwise
      (fun r₁ r₂ => ∀ a ∈ r₁, ∀ c ∈ r₂, center_y a < center_y c)) ∧
    questionRows [⟨0, 0, 10, 10, 200⟩, ⟨20, 0, 10, 10, 200⟩,
        ⟨40, 0, 10, 10, 200⟩, ⟨60, 0, 10, 10, 200⟩] ≠ [] :=
  ⟨c7_row_invariants [⟨0, 0, 10, 10, 200⟩, ⟨20, 0, 10, 10, 200⟩,
    ⟨40, 0, 10, 10, 200⟩, ⟨60, 0, 10, 10, 200⟩], by decide⟩

lemma detect_answers_eq (mask : ℕ → ℕ → Bool) (bubbles : List Bubble) (n : ℤ) :
    (detectFromBubbles mask bubbles n).1 =
      padAnswers n ((pySlice (questionRows bubbles) n).enum.map
        fun p => answerFor mask (p.1 + 1) p.2) := rfl

lemma padAnswers_length (n : ℤ) (answers : List AnswerResult) :
    (padAnswers n answers).length = max answers.length n.toNat := by
  simp only [padAnswers, List.length_append, List.length_map, List.length_range]
  omega

lemma pySlice_nonneg {α : Type} (l : List α) {n : ℤ} (hn : 0 ≤ n) :
    pySlice l n = l.take n.toNat := by
  rw [pySlice, if_pos hn]

/-- C2: for a positive requested count the answer list has exactly that
length; its first min(rows, N) entries are the scored rows, numbered
from 1, with 4 reported percentages each; the remaining entries are
placeholders with position 0 and an empty percentage list. -/
theorem c2_result_shape (mask : ℕ → ℕ → Bool) (bubbles : List Bubble) (n : ℤ)
    (hn : 0 < n) :
    (detectFromBubbles mask bubbles n).1.length = n.toNat ∧
    (∀ i, i < min (questionRows bubbles).length n.toNat →
      ∃ r, (questionRows bubbles)[i]? = some r ∧ r.length = 4 ∧
        (detectFromBubbles mask bubbles n).1[i]? = some (answerFor mask (i + 1) r) ∧
        (answerFor mask (i + 1) r).question_number = i + 1 ∧
        (answerFor mask (i + 1) r).fill_percentages.length = 4) ∧
    (∀ i, min (questionRows bubbles).length n.toNat ≤ i → i < n.toNat →
      (detectFromBubbles mask bubbles n).1[i]? =
        some { question_number := i + 1, position := 0, fill_percentages := [] }) := by
  have hslice : pySlice (questionRows bubbles) n = (questionRows bubbles).take n.toNat :=
    pySlice_nonneg _ (le_of_lt hn)
  have hsclen :
      ((pySlice (questionRows bubbles) n).enum.map
        (fun p => answerFor mask (p.1 + 1) p.2)).length =
        min n.toNat (questionRows bubbles).length := by
    rw [List.length_map, List.enum_length, hslice, List.length_take]
  refine ⟨?_, ?_, ?_⟩
  · rw [detect_answers_eq, padAnswers_length, hsclen]
    omega
  · intro i hi
    have hiq : i < (questionRows bubbles).length := lt_of_lt_of_le hi (min_le_left _ _)
    have hin : i < n.toNat := lt_of_lt_of_le hi (min_le_right _ _)
    have hisc : i < ((pySlice (questionRows bubbles) n).enum.map
        (fun p => answerFor mask (p.1 + 1) p.2)).length := by
      rw [hsclen]; omega
    refine ⟨(questionRows bubbles)[i], List.getElem?_eq_getElem hiq, ?_, ?_, rfl, ?_⟩
    · exact questionRows_length_four bubbles _ (List.getElem_mem hiq)
    · rw [detect_answers_eq]
      simp only [padAnswers]
      rw [List.getElem?_append_left hisc, List.getElem?_eq_getElem hisc]
      congr 1
      rw [List.getElem_map, List.getElem_enum]
      simp only [hslice, List.getElem_take]
    · simp only [answerFor, List.length_map]
      exact questionRows_length_four bubbles _ (List.getElem_mem hiq)
  · intro i hk hin
    rw [detect_answers_eq]
    simp only [padAnswers]
    rw [List.getElem?_append_right (by omega)]
    have hj : i - ((pySlice (questionRows bubbles) n).enum.map
        (fun p => answerFor mask (p.1 + 1) p.2)).length <
        n.toNat - ((pySlice (questionRows bubbles) n).enum.map
          (fun p => answerFor mask (p.1 + 1) p.2)).length := by omega
    rw [List.getElem?_map, List.getElem?_range hj]
    simp only [Option.map_some', hsclen]
    have harith : n.toNat ⊓ (questionRows bubbles).length +
        (i - n.toNat ⊓ (questionRows bubbles).length) + 1 = i + 1 := by omega
    rw [harith]

/-- Witness for C2: no bubbles, requested count 2. -/
theorem c2_result_shape_witness :
    (detectFromBubbles (fun _ _ => false) [] 2).1.length = (2 : ℤ).toNat :=
  (c2_result_shape (fun _ _ => false) [] 2 (by norm_num)).1

lemma detect_answers_length (mask : ℕ → ℕ → Bool) (bubbles : List Bubble) {n : ℤ}
    (hn : 0 ≤ n) : (detectFromBubbles mask bubbles n).1.length = n.toNat := by
  rw [detect_answers_eq, padAnswers_length, List.length_map, List.enum_length,
    pySlice_nonneg _ hn, List.length_take]
  omega

/-- C5 counterexample: a supplied count of 0 is non-positive; the code
passes it through unchanged (`data.get` defaults only a missing key),
so the pipeline returns an empty answer list, not one of the default
length 20. -/
theorem c5_counterexample :
    resolveNumQuestions (some 0) = 0 ∧
    (detectFromBubbles (fun _ _ => false) [] (resolveNumQuestions (some 0))).1.length = 0 := by
  constructor
  · rfl
  · rfl

/-- C5 (amended): only a missing question count is replaced by the
default 20, in which case the returned answer list has length 20; a
supplied non-positive count is used as-is. -/
theorem c5_default_missing (mask : ℕ → ℕ → Bool) (bubbles : List Bubble) :
    resolveNumQuestions none = 20 ∧
    (detectFromBubbles mask bubbles (resolveNumQuestions none)).1.length = 20 := by
  refine ⟨rfl, ?_⟩
  rw [show resolveNumQuestions none = 20 from rfl,
    detect_answers_length mask bubbles (by norm_num)]
  rfl

lemma flood_scan_blank (mask : ℕ → ℕ → Bool) (f : ℕ) :
    ∀ (ps : List (ℕ × ℕ)) (acc : List (List (ℕ × ℕ)) × List (ℕ × ℕ)),
      (∀ p ∈ ps, mask p.1 p.2 = false) →
      ps.foldl
        (fun (acc : List (List (ℕ × ℕ)) × List (ℕ × ℕ)) p =>
          if mask p.1 p.2 && !(acc.2.contains p) then
            (acc.1 ++ [flood mask f [p] []], acc.2 ++ flood mask f [p] [])
          else acc) acc = acc := by
  intro ps
  induction ps with
  | nil => intro acc _; rfl
  | cons p ps ih =>
    intro acc hall
    rw [List.foldl_cons]
    have hp : mask p.1 p.2 = false := hall p (List.mem_cons_self _ _)
    rw [hp]
    simp only [Bool.false_and, Bool.false_eq_true, if_false]
    exact ih acc fun q hq => hall q (List.mem_cons_of_mem _ hq)

/-- A mask with no foreground pixel on the grid produces no connected
components. -/
lemma findComponents_blank {mask : ℕ → ℕ → Bool} (height width : ℕ)
    (hblank : ∀ i j, i < height → j < width → mask i j = false) :
    findComponents mask height width = [] := by
  rw [findComponents]
  have hall : ∀ p ∈ (List.range height).flatMap
      (fun i => (List.range width).map fun j => (i, j)), mask p.1 p.2 = false := by
    intro p hp
    simp only [List.mem_flatMap, List.mem_map, List.mem_range] at hp
    obtain ⟨i, hi, j, hj, rfl⟩ := hp
    exact hblank i j hi hj
  rw [flood_scan_blank mask (height * width + 1) _ ([], []) hall]

/-- C8: on a fully blank mask the pipeline returns, without raising
anything, zero bubble candidates, zero rows and a list of exactly
`n` placeholder answers. -/
theorem c8_blank_mask (mask : ℕ → ℕ → Bool) (height width : ℕ) (n : ℤ)
    (hblank : ∀ i j, i < height → j < width → mask i j = false) (hn : 0 < n) :
    detect_filled_bubbles mask height width n =
      ((List.range n.toNat).map fun i =>
        { question_number := i + 1, position := 0, fill_percentages := [] }, 0, 0) := by
  rw [detect_filled_bubbles]
  rw [findComponents_blank height width hblank]
  simp only [List.map_nil, List.filter_nil]
  rw [detectFromBubbles]
  simp only [questionRows, sortY, List.insertionSort, rowsAux_nil]
  rw [pySlice_nonneg _ (le_of_lt hn)]
  simp only [List.take_nil, List.enum_nil, List.map_nil, List.length_nil, padAnswers,
    Nat.sub_zero, List.nil_append, Nat.zero_add]

/-- Witness for C8: the all-false 2-by-2 mask with one requested
question. -/
theorem c8_blank_mask_witness :
    detect_filled_bubbles (fun _ _ => false) 2 2 1 =
      ((List.range (1 : ℤ).toNat).map fun i =>
        { question_number := i + 1, position := 0, fill_percentages := [] }, 0, 0) :=
  c8_blank_mask (fun _ _ => false) 2 2 1 (fun _ _ _ _ => rfl) (by norm_num)

/-- C6 counterexample: the bubbles (0,0,10,10) and (2,2,7,7) are
distinct records with identical centers (5,5); swapping them is a
permutation of the candidate list, yet the produced row lists them in
a different order, so the position assignment within the row is not
permutation-invariant. -/
theorem c6_counterexample :
    ([⟨0, 0, 10, 10, 200⟩, ⟨2, 2, 7, 7, 200⟩, ⟨20, 0, 10, 10, 200⟩,
        ⟨40, 0, 10, 10, 200⟩] : List Bubble).Perm
      [⟨2, 2, 7, 7, 200⟩, ⟨0, 0, 10, 10, 200⟩, ⟨20, 0, 10, 10, 200⟩,
        ⟨40, 0, 10, 10, 200⟩] ∧
    questionRows [⟨0, 0, 10, 10, 200⟩, ⟨2, 2, 7, 7, 200⟩, ⟨20, 0, 10, 10, 200⟩,
        ⟨40, 0, 10, 10, 200⟩] ≠
      questionRows [⟨2, 2, 7, 7, 200⟩, ⟨0, 0, 10, 10, 200⟩, ⟨20, 0, 10, 10, 200⟩,
        ⟨40, 0, 10, 10, 200⟩] := by
  constructor <;> decide

/-- C6 (amended): permuting the candidate list yields the same number
of rows with the same memberships (pointwise equal as multisets, hence
the same question numbering); the exact left-to-right position
assignment within the rows is also unchanged provided no two
candidates share the same horizontal center. -/
theorem c6_permutation_invariance (l l' : List Bubble) (hp : l.Perm l') :
    List.Forall₂ (fun r r' => r.Perm r') (questionRows l) (questionRows l') ∧
    ((l.map center_x).Nodup → questionRows l = questionRows l') := by
  have hperm : (sortY l).Perm (sortY l') :=
    (sortY_perm l).trans (hp.trans (sortY_perm l').symm)
  have hf : List.Forall₂ (fun r r' => r.Perm r') (rowsAux (sortY l)) (rowsAux (sortY l')) :=
    rowsAux_perm_aux (sortY l).length (Nat.le_refl _) hperm (sortY_sorted l) (sortY_sorted l')
  refine ⟨hf, fun hnd => ?_⟩
  have hnd1 : ((sortY l).map center_x).Nodup :=
    (((sortY_perm l).map center_x).symm).nodup hnd
  apply forall₂_perm_rows_eq hf
  · intro r hr
    exact ⟨(rowsAux_rows_spec (sortY l).length _ (Nat.le_refl _)
      (sortY_sorted l) r hr).2.1, rowsAux_row_nodupX hnd1 hr⟩
  · intro r' hr'
    exact (rowsAux_rows_spec (sortY l').length _ (Nat.le_refl _)
      (sortY_sorted l') r' hr').2.1

/-- Witness for C6: a 4-candidate list with distinct horizontal
centers and a transposition of it. -/
theorem c6_permutation_invariance_witness :
    List.Forall₂ (fun r r' => r.Perm r')
      (questionRows [⟨0, 0, 10, 10, 200⟩, ⟨20, 0, 10, 10, 200⟩,
        ⟨40, 0, 10, 10, 200⟩, ⟨60, 0, 10, 10, 200⟩])
      (questionRows [⟨20, 0, 10, 10, 200⟩, ⟨0, 0, 10, 10, 200⟩,
        ⟨40, 0, 10, 10, 200⟩, ⟨60, 0, 10, 10, 200⟩]) ∧
    ((([⟨0, 0, 10, 10, 200⟩, ⟨20, 0, 10, 10, 200⟩, ⟨40, 0, 10, 10, 200⟩,
        ⟨60, 0, 10, 10, 200⟩] : List Bubble).map center_x).Nodup →
      questionRows [⟨0, 0, 10, 10, 200⟩, ⟨20, 0, 10, 10, 200⟩,
        ⟨40, 0, 10, 10, 200⟩, ⟨60, 0, 10, 10, 200⟩] =
      questionRows [⟨20, 0, 10, 10, 200⟩, ⟨0, 0, 10, 10, 200⟩,
        ⟨40, 0, 10, 10, 200⟩, ⟨60, 0, 10, 10, 200⟩]) :=
  c6_permutation_invariance
    [⟨0, 0, 10, 10, 200⟩, ⟨20, 0, 10, 10, 200⟩, ⟨40, 0, 10, 10, 200⟩, ⟨60, 0, 10, 10, 200⟩]
    [⟨20, 0, 10, 10, 200⟩, ⟨0, 0, 10, 10, 200⟩, ⟨40, 0, 10, 10, 200⟩, ⟨60, 0, 10, 10, 200⟩]
    (by decide)

end OMR
